import Mathlib

/-!
Verification of the remarkable-fs document model, upload pipeline,
filesystem permission checks and .lines stroke decoder, as a shallow
embedding of src/remarkable_fs (documents.py, fs.py, rM2svg.py).
-/

/-! ## Metadata records (documents.py, the .metadata JSON dict) -/

/-- One .metadata record, as kept in Node.metadata (documents.py).
The JSON key "modified" is modelled by the field dataModified and the JSON
key "type" by the field ntype; all other fields keep their JSON key names. -/
structure MetaRec where
  visibleName : String
  parent : String
  ntype : String
  deleted : Bool
  pinned : Bool
  dataModified : Bool
  metadatamodified : Bool
  synced : Bool
  version : Nat
  lastModified : String
deriving DecidableEq

/-- The mutable per-node state shared by all Node variants:
the metadata dict plus the in-memory modified flag (Node.__init__). -/
structure NodeSt where
  meta : MetaRec
  modified : Bool
deriving DecidableEq

/-- The common body of every setter built by Node._rw (documents.py lines
88-93): clear synced, set metadatamodified, increment version. -/
def bumpMeta (m : MetaRec) : MetaRec :=
  { m with synced := false, metadatamodified := true, version := m.version + 1 }

/-- Node.name setter (the _rw property over visibleName). -/
def setName (n : NodeSt) (v : String) : NodeSt :=
  { n with meta := { bumpMeta n.meta with visibleName := v }, modified := true }

/-- Node.deleted setter (the _rw property over deleted). -/
def setDeleted (n : NodeSt) (v : Bool) : NodeSt :=
  { n with meta := { bumpMeta n.meta with deleted := v }, modified := true }

/-- Node.data_modified setter (the _rw property over the JSON key modified). -/
def setDataModified (n : NodeSt) (v : Bool) : NodeSt :=
  { n with meta := { bumpMeta n.meta with dataModified := v }, modified := true }

/-- Node.pinned setter (the _rw property over pinned). -/
def setPinned (n : NodeSt) (v : Bool) : NodeSt :=
  { n with meta := { bumpMeta n.meta with pinned := v }, modified := true }

/-- An assignment through one of the four _rw model setters. -/
inductive Mutation where
  | name (v : String)
  | deleted (v : Bool)
  | dataModified (v : Bool)
  | pinned (v : Bool)

/-- Apply one setter assignment to a node state. -/
def applyMut (n : NodeSt) : Mutation → NodeSt
  | .name v => setName n v
  | .deleted v => setDeleted n v
  | .dataModified v => setDataModified n v
  | .pinned v => setPinned n v

/-- Apply a sequence of setter assignments in order. -/
def applyMuts (n : NodeSt) (ms : List Mutation) : NodeSt :=
  ms.foldl applyMut n

theorem applyMut_version (n : NodeSt) (mu : Mutation) :
    (applyMut n mu).meta.version = n.meta.version + 1 := by
  cases mu <;> rfl

theorem applyMuts_version (n : NodeSt) (ms : List Mutation) :
    (applyMuts n ms).meta.version = n.meta.version + ms.length := by
  induction ms generalizing n with
  | nil => rfl
  | cons mu ms ih =>
      show (applyMuts (applyMut n mu) ms).meta.version = _
      rw [ih, applyMut_version, List.length_cons]
      omega

/-- C5: every assignment through a model metadata setter (name, deleted,
data_modified, pinned) increments version by exactly 1, clears synced, sets
metadatamodified, marks the node modified; hence version strictly increases
across any nonempty sequence of metadata mutations on one node. -/
theorem setter_bumps_version (n : NodeSt) (mu : Mutation) (ms : List Mutation)
    (hms : ms ≠ []) :
    (applyMut n mu).meta.version = n.meta.version + 1 ∧
    (applyMut n mu).meta.synced = false ∧
    (applyMut n mu).meta.metadatamodified = true ∧
    (applyMut n mu).modified = true ∧
    (applyMuts n ms).meta.version = n.meta.version + ms.length ∧
    n.meta.version < (applyMuts n ms).meta.version := by
  refine ⟨applyMut_version n mu, ?_, ?_, ?_, applyMuts_version n ms, ?_⟩
  · cases mu <;> rfl
  · cases mu <;> rfl
  · cases mu <;> rfl
  · rw [applyMuts_version]
    have : ms.length ≠ 0 := fun h => hms (List.length_eq_zero.mp h)
    omega

/-- A concrete metadata record, used by witnesses below. -/
def meta0 : MetaRec :=
  { visibleName := "Book", parent := "", ntype := "DocumentType",
    deleted := false, pinned := false, dataModified := true,
    metadatamodified := true, synced := false, version := 1,
    lastModified := "0" }

theorem setter_bumps_version_witness :
    ({ meta := meta0, modified := false } : NodeSt).meta.version <
      (applyMuts { meta := meta0, modified := false } [.pinned true]).meta.version :=
  (setter_bumps_version { meta := meta0, modified := false } (.pinned true)
    [.pinned true] (by simp)).2.2.2.2.2

/-! ## Collection.add_child name disambiguation (documents.py lines 175-191) -/

/-- The decimal digit character for d, as printed by the %d format. -/
def digitCh (d : Nat) : Char :=
  match d with
  | 0 => '0' | 1 => '1' | 2 => '2' | 3 => '3' | 4 => '4'
  | 5 => '5' | 6 => '6' | 7 => '7' | 8 => '8' | _ => '9'

/-- The numeric value of a decimal digit character. -/
def charVal (c : Char) : Nat := c.toNat - 48

/-- The decimal digit characters of n, most significant first: the rendering
of n by the %d format specifier. -/
def decChars (n : Nat) : List Char :=
  if _h : n < 10 then [digitCh n]
  else decChars (n / 10) ++ [digitCh (n % 10)]
decreasing_by exact Nat.div_lt_self (by omega) (by omega)

/-- Read a digit-character list back as a number. -/
def valOfChars (cs : List Char) : Nat :=
  cs.foldl (fun acc c => 10 * acc + charVal c) 0

theorem charVal_digitCh (d : Nat) (h : d < 10) : charVal (digitCh d) = d := by
  interval_cases d <;> rfl

theorem decChars_foldl (n : Nat) : ∀ i : Nat,
    List.foldl (fun acc c => 10 * acc + charVal c) i (decChars n) =
      i * 10 ^ (decChars n).length + n := by
  induction n using Nat.strong_induction_on with
  | _ n ih =>
    intro i
    by_cases h : n < 10
    · rw [decChars, dif_pos h]
      simp [charVal_digitCh n h]
      ring
    · rw [decChars, dif_neg h]
      have hlt : n / 10 < n := Nat.div_lt_self (by omega) (by omega)
      rw [List.foldl_append, ih (n / 10) hlt i, List.length_append]
      simp only [List.foldl_cons, List.foldl_nil, List.length_singleton]
      rw [charVal_digitCh (n % 10) (Nat.mod_lt n (by omega))]
      have := Nat.div_add_mod n 10
      ring_nf
      omega

theorem valOfChars_decChars (n : Nat) : valOfChars (decChars n) = n := by
  unfold valOfChars
  rw [decChars_foldl n 0]
  simp

/-- The candidate name built by the %s (%d) format in add_child. -/
def numSuffix (name : String) (n : Nat) : String :=
  name ++ " (" ++ ⟨decChars n⟩ ++ ")"

theorem numSuffix_inj (name : String) {m n : Nat}
    (h : numSuffix name m = numSuffix name n) : m = n := by
  have hd : (numSuffix name m).data = (numSuffix name n).data := by rw [h]
  simp only [numSuffix] at hd
  have hd2 : name.data ++ " (".data ++ decChars m ++ ")".data =
      name.data ++ " (".data ++ decChars n ++ ")".data := by
    simpa using hd
  rw [List.append_assoc (name.data ++ " (".data), List.append_assoc (name.data ++ " (".data)] at hd2
  have hd3 := List.append_cancel_left hd2
  have hd4 := List.append_cancel_right hd3
  have := congrArg valOfChars hd4
  rwa [valOfChars_decChars, valOfChars_decChars] at this

/-- Among any keys.length + 1 consecutive candidate names, at least one is
not already a key (the candidates are pairwise distinct). -/
theorem numSuffix_escape (keys : List String) (name : String) (n : Nat) :
    ∃ i, i ≤ keys.length ∧ numSuffix name (n + i) ∉ keys := by
  by_contra hcon
  push_neg at hcon
  have hinj : Function.Injective (fun i : Nat => numSuffix name (n + i)) := by
    intro a b hab
    have := numSuffix_inj name hab
    omega
  have hnodup : ((List.range (keys.length + 1)).map
      (fun i => numSuffix name (n + i))).Nodup :=
    (List.nodup_range _).map hinj
  have hsub : ((List.range (keys.length + 1)).map
      (fun i => numSuffix name (n + i))) ⊆ keys := by
    intro x hx
    rcases List.mem_map.mp hx with ⟨i, hi, rfl⟩
    exact hcon i (Nat.lt_succ_iff.mp (List.mem_range.mp hi))
  have hlen := (List.subperm_of_subset hnodup hsub).length_le
  simp at hlen

/-- The disambiguation loop of add_child (for n in itertools.count(2): ...),
given enough fuel to reach a free candidate. Fuel f allows trying the
candidates n, n+1, ..., n+f. -/
def freshNameAux (keys : List String) (name : String) : Nat → Nat → String
  | 0, n => numSuffix name n
  | fuel + 1, n =>
      if numSuffix name n ∈ keys then freshNameAux keys name fuel (n + 1)
      else numSuffix name n

/-- Slash removal on insertion: child.file_name.replace("/", "-"). -/
def sanitizeName (s : String) : String :=
  s.map (fun c => if c = '/' then '-' else c)

/-- The display name chosen by Collection.add_child for a child with the
given file_name, inserted into a collection whose child map has the given
keys. -/
def addChildName (keys : List String) (fileName : String) : String :=
  let name := sanitizeName fileName
  if name ∈ keys then freshNameAux keys name keys.length 2 else name

theorem freshNameAux_spec (keys : List String) (name : String) :
    ∀ fuel n, (∃ i, i ≤ fuel ∧ numSuffix name (n + i) ∉ keys) →
      ∃ m, n ≤ m ∧ freshNameAux keys name fuel n = numSuffix name m ∧
        numSuffix name m ∉ keys ∧
        ∀ j, n ≤ j → j < m → numSuffix name j ∈ keys := by
  intro fuel
  induction fuel with
  | zero =>
      intro n ⟨i, hi, hfree⟩
      interval_cases i
      refine ⟨n, le_refl n, rfl, by simpa using hfree, ?_⟩
      intro j h1 h2
      omega
  | succ fuel ih =>
      intro n ⟨i, hi, hfree⟩
      by_cases hmem : numSuffix name n ∈ keys
      · have hi0 : i ≠ 0 := by
          intro h
          subst h
          simp at hfree
          exact hfree hmem
        obtain ⟨m, hm1, hm2, hm3, hm4⟩ := ih (n + 1)
          ⟨i - 1, by omega, by
            have : n + 1 + (i - 1) = n + i := by omega
            rw [this]
            exact hfree⟩
        refine ⟨m, by omega, ?_, hm3, ?_⟩
        · rw [freshNameAux, if_pos hmem]
          exact hm2
        · intro j h1 h2
          rcases Nat.eq_or_lt_of_le h1 with h | h
          · rwa [h] at hmem
          · exact hm4 j (by omega) h2
      · exact ⟨n, le_refl n, by rw [freshNameAux, if_neg hmem], hmem,
          fun j h1 h2 => absurd (by omega : n < n) (lt_irrefl n)⟩

/-- The chosen display name is never one of the existing keys. -/
theorem addChildName_not_mem (keys : List String) (fileName : String) :
    addChildName keys fileName ∉ keys := by
  unfold addChildName
  by_cases hmem : sanitizeName fileName ∈ keys
  · rw [if_pos hmem]
    obtain ⟨i, hi, hfree⟩ := numSuffix_escape keys (sanitizeName fileName) 2
    obtain ⟨m, _, heq, hnot, _⟩ :=
      freshNameAux_spec keys (sanitizeName fileName) keys.length 2 ⟨i, hi, hfree⟩
    rw [heq]
    exact hnot
  · rw [if_neg hmem]
    exact hmem

/-- One child-map operation on a Collection: an insertion through add_child
(from load, new_document, new_collection or rename) or a removal through
remove_child (from rename or delete). The child map is an insertion-ordered
association list from display name to child id. -/
inductive ChildOp where
  | add (fileName : String) (childId : String)
  | remove (childId : String)

/-- Apply one operation to a child map (add_child and remove_child). -/
def applyChildOp (children : List (String × String)) : ChildOp → List (String × String)
  | .add fn cid => children ++ [(addChildName (children.map Prod.fst) fn, cid)]
  | .remove cid => children.filter (fun p => p.2 ≠ cid)

/-- Apply a sequence of child-map operations in order. -/
def applyChildOps (children : List (String × String)) (ops : List ChildOp) :
    List (String × String) :=
  ops.foldl applyChildOp children

theorem applyChildOp_nodup (children : List (String × String)) (op : ChildOp)
    (h : (children.map Prod.fst).Nodup) :
    ((applyChildOp children op).map Prod.fst).Nodup := by
  cases op with
  | add fn cid =>
      simp only [applyChildOp, List.map_append, List.map_cons, List.map_nil]
      rw [List.nodup_append]
      exact ⟨h, List.nodup_singleton _, by
        intro a ha hb
        simp at hb
        subst hb
        exact addChildName_not_mem (children.map Prod.fst) fn ha⟩
  | remove cid =>
      exact h.sublist ((List.filter_sublist children).map Prod.fst)

theorem applyChildOps_nodup (children : List (String × String)) (ops : List ChildOp)
    (h : (children.map Prod.fst).Nodup) :
    ((applyChildOps children ops).map Prod.fst).Nodup := by
  induction ops generalizing children with
  | nil => exact h
  | cons op ops ih => exact ih (applyChildOp children op) (applyChildOp_nodup children op h)

/-- C3: after any sequence of child-map operations (insertions from load,
create and rename, and removals), the display names in one Collection are
pairwise distinct; on each insertion slashes are first replaced by hyphens
and, if the result collides, the suffix built from the least n greater than
or equal to 2 that frees the name is appended. -/
theorem add_child_unique_names (keys : List String) (fileName : String)
    (children : List (String × String)) (ops : List ChildOp)
    (hnd : (children.map Prod.fst).Nodup) :
    ((applyChildOps children ops).map Prod.fst).Nodup ∧
    addChildName keys fileName ∉ keys ∧
    (sanitizeName fileName ∉ keys → addChildName keys fileName = sanitizeName fileName) ∧
    (sanitizeName fileName ∈ keys →
      ∃ m, 2 ≤ m ∧ addChildName keys fileName = numSuffix (sanitizeName fileName) m ∧
        numSuffix (sanitizeName fileName) m ∉ keys ∧
        ∀ j, 2 ≤ j → j < m → numSuffix (sanitizeName fileName) j ∈ keys) := by
  refine ⟨applyChildOps_nodup children ops hnd, addChildName_not_mem keys fileName, ?_, ?_⟩
  · intro hmem
    unfold addChildName
    rw [if_neg hmem]
  · intro hmem
    obtain ⟨i, hi, hfree⟩ := numSuffix_escape keys (sanitizeName fileName) 2
    obtain ⟨m, hm1, hm2, hm3, hm4⟩ :=
      freshNameAux_spec keys (sanitizeName fileName) keys.length 2 ⟨i, hi, hfree⟩
    refine ⟨m, hm1, ?_, hm3, hm4⟩
    unfold addChildName
    rw [if_pos hmem]
    exact hm2

theorem add_child_unique_names_witness :
    ((applyChildOps [] [.add "Notes.pdf" "a", .add "Notes.pdf" "b"]).map Prod.fst).Nodup ∧
    addChildName ["Notes.pdf"] "Notes.pdf" ∉ ["Notes.pdf"] :=
  ⟨(add_child_unique_names ["Notes.pdf"] "Notes.pdf" []
      [.add "Notes.pdf" "a", .add "Notes.pdf" "b"] (by simp)).1,
    (add_child_unique_names ["Notes.pdf"] "Notes.pdf" []
      [.add "Notes.pdf" "a", .add "Notes.pdf" "b"] (by simp)).2.1⟩

/-! ## NewDocument save and rename (documents.py lines 396-451, 506-542)
and the filesystem flush (fs.py lines 112-118) -/

/-- file_name.startswith("."): whether the display file name begins with a
dot character. -/
def startsDot (s : String) : Bool :=
  match s.data with
  | [] => false
  | c :: _ => c == '.'

/-- POSIX error codes raised by the filesystem adapter (fs.py). -/
inductive Errno where
  | EPERM | ENOENT | ioError | EEXIST | EBUSY | EISDIR | ENOTDIR | ENOTEMPTY | ENOTSUP
deriving DecidableEq

/-- bytes.startswith for byte strings modelled as lists of byte values. -/
def startsWithBytes (data magic : List Nat) : Bool :=
  data.take magic.length == magic

/-- The byte values of the %PDF magic. -/
def pdfMagic : List Nat := [37, 80, 68, 70]

/-- The byte values of the AT&TFORM (djvu) magic. -/
def djvuMagic : List Nat := [65, 84, 38, 84, 70, 79, 82, 77]

/-- The byte values of the %!PS-Adobe magic. -/
def psMagic : List Nat := [37, 33, 80, 83, 45, 65, 100, 111, 98, 101]

/-- The byte values of the PK (zip, epub) magic. -/
def zipMagic : List Nat := [80, 75]

/-- The external djvu and ps converter subprocesses, modelled as oracles:
none models a non-zero exit status, which convert_document turns into an
IOError. -/
structure ConvOracle where
  djvu : List Nat → Option (List Nat)
  ps : List Nat → Option (List Nat)

/-- convert_document (documents.py lines 506-542): magic-byte format
detection; none models the raised IOError. -/
def convert_document (o : ConvOracle) (data : List Nat) : Option (String × List Nat) :=
  if startsWithBytes data pdfMagic then some ("pdf", data)
  else if startsWithBytes data djvuMagic then (o.djvu data).map (fun d => ("pdf", d))
  else if startsWithBytes data psMagic then (o.ps data).map (fun d => ("pdf", d))
  else if startsWithBytes data zipMagic then some ("epub", data)
  else none

/-- One remote write, as issued through DocumentRoot.write_content,
write_file and write_metadata. The JSON payloads are kept symbolic. -/
inductive RData where
  | bytes (b : List Nat)
  | contentJson (fileType : String)
  | metadataJson (m : MetaRec)
deriving DecidableEq

/-- A NewDocument (pending upload): id, display file name, shared node
state, and the BytesIO write buffer. -/
structure NDoc where
  id : String
  fileName : String
  st : NodeSt
  buf : List Nat
deriving DecidableEq

/-- The outcome of running save on a NewDocument: whether an IOError was
raised to the caller, the final node state, the parent child map, and the
accumulated trace of remote writes. -/
structure SaveResult where
  raised : Bool
  doc : NDoc
  children : List (String × String)
  writes : List (String × RData)
deriving DecidableEq

/-- NewDocument.really_save (documents.py lines 434-444). On conversion
failure, delete() removes the node from the parent child map and sets the
deleted flag; the save() inside delete() is a no-op because
NewDocument.save tests the deleted flag, so no write happens and the
IOError propagates. On success, content, payload and metadata are written
in that order and Node.save clears the modified flag. -/
def really_save (o : ConvOracle) (d : NDoc) (children : List (String × String))
    (w : List (String × RData)) : SaveResult :=
  if d.st.modified = true ∧ d.buf ≠ [] then
    match convert_document o d.buf with
    | none =>
        { raised := true, doc := { d with st := setDeleted d.st true },
          children := applyChildOp children (.remove d.id), writes := w }
    | some (ft, data) =>
        { raised := false,
          doc := { d with st := { d.st with modified := false } },
          children := children,
          writes := w ++ [(d.id ++ ".content", .contentJson ft),
                          (d.id ++ "." ++ ft, .bytes data),
                          (d.id ++ ".metadata", .metadataJson d.st.meta)] }
  else { raised := false, doc := d, children := children, writes := w }

/-- NewDocument.save (documents.py lines 430-432): dot files and deleted
nodes are silently ignored. -/
def nd_save (o : ConvOracle) (d : NDoc) (children : List (String × String))
    (w : List (String × RData)) : SaveResult :=
  if startsDot d.fileName = false ∧ d.st.meta.deleted = false then
    really_save o d children w
  else { raised := false, doc := d, children := children, writes := w }

/-- Remarkable.flush (fs.py lines 112-118): an IOError from save surfaces
as the EIO code, modelled by the constructor ioError. -/
def flushResult (r : SaveResult) : Except Errno Unit :=
  if r.raised then .error .ioError else .ok ()

theorem really_save_none (o : ConvOracle) (d : NDoc) (children : List (String × String))
    (w : List (String × RData)) (hmod : d.st.modified = true) (hbuf : d.buf ≠ [])
    (hc : convert_document o d.buf = none) :
    really_save o d children w =
      { raised := true, doc := { d with st := setDeleted d.st true },
        children := applyChildOp children (.remove d.id), writes := w } := by
  unfold really_save
  rw [if_pos ⟨hmod, hbuf⟩, hc]

theorem really_save_some (o : ConvOracle) (d : NDoc) (children : List (String × String))
    (w : List (String × RData)) (ft : String) (data : List Nat)
    (hmod : d.st.modified = true) (hbuf : d.buf ≠ [])
    (hc : convert_document o d.buf = some (ft, data)) :
    really_save o d children w =
      { raised := false, doc := { d with st := { d.st with modified := false } },
        children := children,
        writes := w ++ [(d.id ++ ".content", .contentJson ft),
                        (d.id ++ "." ++ ft, .bytes data),
                        (d.id ++ ".metadata", .metadataJson d.st.meta)] } := by
  unfold really_save
  rw [if_pos ⟨hmod, hbuf⟩, hc]

theorem nd_save_live (o : ConvOracle) (d : NDoc) (children : List (String × String))
    (w : List (String × RData)) (hdot : startsDot d.fileName = false)
    (hdel : d.st.meta.deleted = false) :
    nd_save o d children w = really_save o d children w := by
  unfold nd_save
  rw [if_pos ⟨hdot, hdel⟩]

theorem convert_document_unknown (o : ConvOracle) (data : List Nat)
    (h1 : startsWithBytes data pdfMagic = false)
    (h2 : startsWithBytes data djvuMagic = false)
    (h3 : startsWithBytes data psMagic = false)
    (h4 : startsWithBytes data zipMagic = false) :
    convert_document o data = none := by
  unfold convert_document
  rw [h1, h2, h3, h4]
  simp

theorem convert_document_pdf (o : ConvOracle) (data : List Nat)
    (h : data.take 4 = pdfMagic) :
    convert_document o data = some ("pdf", data) := by
  unfold convert_document
  have : startsWithBytes data pdfMagic = true := by
    unfold startsWithBytes
    rw [show pdfMagic.length = 4 from rfl, h]
    simp
  rw [this]
  simp

/-- C2: saving a PendingDocument with a non-dot name and a non-empty buffer
matching none of the four magics raises a conversion error, surfaced by
flush as EIO; the node is removed from the parent child map and no remote
write happens, whatever the external converters would do. -/
theorem unsupported_upload_rejected (o : ConvOracle) (d : NDoc)
    (children : List (String × String)) (w : List (String × RData))
    (hdot : startsDot d.fileName = false)
    (hdel : d.st.meta.deleted = false)
    (hmod : d.st.modified = true)
    (hbuf : d.buf ≠ [])
    (h1 : startsWithBytes d.buf pdfMagic = false)
    (h2 : startsWithBytes d.buf djvuMagic = false)
    (h3 : startsWithBytes d.buf psMagic = false)
    (h4 : startsWithBytes d.buf zipMagic = false) :
    (nd_save o d children w).raised = true ∧
    flushResult (nd_save o d children w) = .error .ioError ∧
    (∀ nm, (nm, d.id) ∉ (nd_save o d children w).children) ∧
    (nd_save o d children w).writes = w := by
  rw [nd_save_live o d children w hdot hdel,
    really_save_none o d children w hmod hbuf
      (convert_document_unknown o d.buf h1 h2 h3 h4)]
  refine ⟨rfl, rfl, ?_, rfl⟩
  intro nm hmem
  simp only [applyChildOp] at hmem
  have := List.of_mem_filter hmem
  simp at this

theorem unsupported_upload_rejected_witness :
    (nd_save ⟨fun _ => none, fun _ => none⟩
        ⟨"id1", "hello.txt", ⟨meta0, true⟩, [104, 101, 108, 108, 111]⟩ [] []).raised = true :=
  (unsupported_upload_rejected ⟨fun _ => none, fun _ => none⟩
    ⟨"id1", "hello.txt", ⟨meta0, true⟩, [104, 101, 108, 108, 111]⟩ [] []
    (by decide) (by decide) (by decide) (by decide)
    (by decide) (by decide) (by decide) (by decide)).1

/-- C4: saving a PendingDocument with a non-dot name and a buffer starting
with %PDF performs exactly three remote writes in order: id.content with
fileType pdf, then id.pdf byte-equal to the buffer, then id.metadata; the
modified flag ends false. -/
theorem pdf_upload_writes (o : ConvOracle) (d : NDoc)
    (children : List (String × String)) (w : List (String × RData))
    (hdot : startsDot d.fileName = false)
    (hdel : d.st.meta.deleted = false)
    (hmod : d.st.modified = true)
    (hpdf : d.buf.take 4 = pdfMagic) :
    nd_save o d children w =
      { raised := false, doc := { d with st := { d.st with modified := false } },
        children := children,
        writes := w ++ [(d.id ++ ".content", .contentJson "pdf"),
                        (d.id ++ "." ++ "pdf", .bytes d.buf),
                        (d.id ++ ".metadata", .metadataJson d.st.meta)] } := by
  have hbuf : d.buf ≠ [] := by
    intro h
    rw [h] at hpdf
    simp [pdfMagic] at hpdf
  rw [nd_save_live o d children w hdot hdel,
    really_save_some o d children w "pdf" d.buf hmod hbuf
      (convert_document_pdf o d.buf hpdf)]

theorem pdf_upload_writes_witness :
    nd_save ⟨fun _ => none, fun _ => none⟩
        ⟨"id1", "a.pdf", ⟨meta0, true⟩, [37, 80, 68, 70, 10]⟩ [] [] =
      { raised := false, doc := ⟨"id1", "a.pdf", ⟨meta0, false⟩, [37, 80, 68, 70, 10]⟩,
        children := [],
        writes := [("id1" ++ ".content", .contentJson "pdf"),
                   ("id1" ++ "." ++ "pdf", .bytes [37, 80, 68, 70, 10]),
                   ("id1" ++ ".metadata", .metadataJson meta0)] } := by
  have := pdf_upload_writes ⟨fun _ => none, fun _ => none⟩
    ⟨"id1", "a.pdf", ⟨meta0, true⟩, [37, 80, 68, 70, 10]⟩ [] []
    (by decide) (by decide) (by decide) (by decide)
  simpa using this

/-- C8: saving a PendingDocument whose display filename begins with a dot,
or whose buffer is empty, performs no remote write, changes nothing and
raises no error; and whenever save raises or writes anything the name was
not a dot name and the buffer was non-empty. -/
theorem dot_or_empty_save_noop (o : ConvOracle) (d : NDoc)
    (children : List (String × String)) (w : List (String × RData)) :
    ((startsDot d.fileName = true ∨ d.buf = []) →
      nd_save o d children w =
        { raised := false, doc := d, children := children, writes := w }) ∧
    ((nd_save o d children w).raised = true ∨ (nd_save o d children w).writes ≠ w →
      startsDot d.fileName = false ∧ d.buf ≠ []) := by
  constructor
  · rintro (hdot | hbuf)
    · unfold nd_save
      rw [if_neg]
      intro ⟨h1, _⟩
      rw [hdot] at h1
      exact absurd h1 (by simp)
    · unfold nd_save
      by_cases hlive : startsDot d.fileName = false ∧ d.st.meta.deleted = false
      · rw [if_pos hlive]
        unfold really_save
        rw [if_neg]
        intro ⟨_, h2⟩
        exact h2 hbuf
      · rw [if_neg hlive]
  · intro h
    by_cases hdot : startsDot d.fileName = false
    · refine ⟨hdot, ?_⟩
      intro hbuf
      rcases h with h | h
      · unfold nd_save at h
        by_cases hlive : startsDot d.fileName = false ∧ d.st.meta.deleted = false
        · rw [if_pos hlive] at h
          unfold really_save at h
          rw [if_neg (by intro ⟨_, h2⟩; exact h2 hbuf)] at h
          simp at h
        · rw [if_neg hlive] at h
          simp at h
      · apply h
        unfold nd_save
        by_cases hlive : startsDot d.fileName = false ∧ d.st.meta.deleted = false
        · rw [if_pos hlive]
          unfold really_save
          rw [if_neg (by intro ⟨_, h2⟩; exact h2 hbuf)]
        · rw [if_neg hlive]
    · exfalso
      have hdot2 : startsDot d.fileName = true := by
        revert hdot
        cases startsDot d.fileName <;> simp
      have hnoop : nd_save o d children w =
          { raised := false, doc := d, children := children, writes := w } := by
        unfold nd_save
        rw [if_neg]
        intro ⟨h1, _⟩
        rw [hdot2] at h1
        exact absurd h1 (by simp)
      rcases h with h | h
      · rw [hnoop] at h
        simp at h
      · rw [hnoop] at h
        simp at h

theorem dot_or_empty_save_noop_witness :
    nd_save ⟨fun _ => none, fun _ => none⟩
        ⟨"id1", ".tmp", ⟨meta0, true⟩, [1, 2, 3]⟩ [] [] =
      { raised := false, doc := ⟨"id1", ".tmp", ⟨meta0, true⟩, [1, 2, 3]⟩,
        children := [], writes := [] } :=
  (dot_or_empty_save_noop ⟨fun _ => none, fun _ => none⟩
    ⟨"id1", ".tmp", ⟨meta0, true⟩, [1, 2, 3]⟩ [] []).1 (Or.inl (by decide))

/-! ## Rename of a NewDocument (documents.py lines 125-134 and 446-451) -/

/-- The index of the last dot in a character list, if any
(os.path.splitext, for names without a directory separator). -/
def lastDotIdx (cs : List Char) : Option Nat :=
  match cs.reverse.findIdx? (fun c => c == '.') with
  | some j => some (cs.length - 1 - j)
  | none => none

/-- os.path.splitext on a bare file name: split at the last dot, except
that leading dots alone never start an extension. -/
def splitExt (s : String) : String × String :=
  match lastDotIdx s.data with
  | none => (s, "")
  | some d =>
      if (s.data.take d).all (fun c => c == '.') then (s, "")
      else (⟨s.data.take d⟩, ⟨s.data.drop d⟩)

/-- strip_extension (documents.py lines 458-464): drop the extension only
when it is one of the four recognised document extensions. -/
def strip_extension (s : String) : String :=
  let e := (splitExt s).2
  if e = ".pdf" ∨ e = ".djvu" ∨ e = ".ps" ∨ e = ".epub" then (splitExt s).1 else s

/-- The outcome of rename: whether an IOError was raised, the final node,
the source and destination child maps (modelled as two distinct
collections, the cross-directory case), and the remote write trace. -/
structure RenameResult where
  raised : Bool
  doc : NDoc
  srcChildren : List (String × String)
  dstChildren : List (String × String)
  writes : List (String × RData)
deriving DecidableEq

/-- The raw dict assignment metadata["parent"] = parent.id in Node.rename:
unlike the _rw setters it bumps nothing. -/
def setParentId (st : NodeSt) (pid : String) : NodeSt :=
  { st with meta := { st.meta with parent := pid } }

/-- Node.rename (documents.py lines 125-134): remove from the old parent,
set visibleName through the setter, replace file_name, write the parent id
directly into the metadata dict (no version bump), add to the new parent,
then save(). The final save dispatches to NewDocument.save. -/
def node_rename (o : ConvOracle) (d : NDoc) (src dst : List (String × String))
    (dstParentId : String) (fileName : String) (w : List (String × RData)) :
    RenameResult :=
  let src2 := applyChildOp src (.remove d.id)
  let d2 : NDoc := { d with st := setName d.st (strip_extension fileName) }
  let d3 : NDoc := { id := d2.id, fileName := fileName, buf := d2.buf,
                     st := setParentId d2.st dstParentId }
  let dst2 := applyChildOp dst (.add fileName d.id)
  let r := nd_save o d3 dst2 w
  { raised := r.raised, doc := r.doc, srcChildren := src2,
    dstChildren := r.children, writes := r.writes }

/-- NewDocument.rename (documents.py lines 446-451): when the new name does
not begin with a dot, run really_save first (an IOError aborts the rename,
with the node already deleted from its parent by really_save), then do the
ordinary Node.rename. -/
def nd_rename (o : ConvOracle) (d : NDoc) (src dst : List (String × String))
    (dstParentId : String) (fileName : String) (w : List (String × RData)) :
    RenameResult :=
  if startsDot fileName = false then
    let r := really_save o d src w
    if r.raised then
      { raised := true, doc := r.doc, srcChildren := r.children,
        dstChildren := dst, writes := r.writes }
    else node_rename o r.doc r.children dst dstParentId fileName r.writes
  else node_rename o d src dst dstParentId fileName w

/-- An nd_save on a dot-named or deleted node changes nothing. -/
theorem nd_save_noop (o : ConvOracle) (d : NDoc) (children : List (String × String))
    (w : List (String × RData))
    (h : ¬(startsDot d.fileName = false ∧ d.st.meta.deleted = false)) :
    nd_save o d children w =
      { raised := false, doc := d, children := children, writes := w } := by
  unfold nd_save
  rw [if_neg h]

/-- C10: renaming a PendingDocument to a non-dot name runs the save and
conversion pipeline first - persisting the buffered bytes, or raising with
the node already removed from its old parent and never linked to the new
one - and only then relinks the node under the new parent and name; a
rename to a dot name moves the node and persists nothing. -/
theorem pending_rename_saves_first (o : ConvOracle) (d : NDoc)
    (src dst : List (String × String)) (dstParentId fileName : String)
    (w : List (String × RData))
    (hmod : d.st.modified = true) (hbuf : d.buf ≠ [])
    (hdel : d.st.meta.deleted = false) :
    (startsDot fileName = true →
      (nd_rename o d src dst dstParentId fileName w).writes = w ∧
      (nd_rename o d src dst dstParentId fileName w).raised = false ∧
      (nd_rename o d src dst dstParentId fileName w).srcChildren =
        applyChildOp src (.remove d.id) ∧
      (nd_rename o d src dst dstParentId fileName w).dstChildren =
        applyChildOp dst (.add fileName d.id) ∧
      (nd_rename o d src dst dstParentId fileName w).doc.fileName = fileName ∧
      (nd_rename o d src dst dstParentId fileName w).doc.st.meta.parent = dstParentId) ∧
    (startsDot fileName = false → convert_document o d.buf = none →
      (nd_rename o d src dst dstParentId fileName w).raised = true ∧
      (nd_rename o d src dst dstParentId fileName w).writes = w ∧
      (nd_rename o d src dst dstParentId fileName w).srcChildren =
        applyChildOp src (.remove d.id) ∧
      (nd_rename o d src dst dstParentId fileName w).dstChildren = dst) ∧
    (∀ ft data, startsDot fileName = false →
      convert_document o d.buf = some (ft, data) →
      (nd_rename o d src dst dstParentId fileName w).raised = false ∧
      (∃ rest, (nd_rename o d src dst dstParentId fileName w).writes =
        w ++ [(d.id ++ ".content", .contentJson ft),
              (d.id ++ "." ++ ft, .bytes data),
              (d.id ++ ".metadata", .metadataJson d.st.meta)] ++ rest) ∧
      (nd_rename o d src dst dstParentId fileName w).srcChildren =
        applyChildOp src (.remove d.id) ∧
      (nd_rename o d src dst dstParentId fileName w).dstChildren =
        applyChildOp dst (.add fileName d.id) ∧
      (nd_rename o d src dst dstParentId fileName w).doc.fileName = fileName ∧
      (nd_rename o d src dst dstParentId fileName w).doc.st.meta.parent = dstParentId ∧
      (nd_rename o d src dst dstParentId fileName w).doc.st.meta.visibleName =
        strip_extension fileName) := by
  refine ⟨?_, ?_, ?_⟩
  · intro hdot
    have hr : nd_rename o d src dst dstParentId fileName w =
        node_rename o d src dst dstParentId fileName w := by
      unfold nd_rename
      rw [if_neg (by rw [hdot]; simp)]
    rw [hr]
    unfold node_rename
    simp only
    rw [nd_save_noop _ _ _ _ (by intro ⟨h1, _⟩; rw [hdot] at h1; exact absurd h1 (by simp))]
    refine ⟨?_, ?_, ?_, ?_, ?_, ?_⟩ <;> simp [setParentId, setName]
  · intro hdot hconv
    have hr : nd_rename o d src dst dstParentId fileName w =
        { raised := true, doc := { d with st := setDeleted d.st true },
          srcChildren := applyChildOp src (.remove d.id),
          dstChildren := dst, writes := w } := by
      unfold nd_rename
      rw [if_pos hdot, really_save_none o d src w hmod hbuf hconv]
      rfl
    rw [hr]
    refine ⟨?_, ?_, ?_, ?_⟩ <;> simp
  · intro ft data hdot hconv
    have hr1 := really_save_some o d src w ft data hmod hbuf hconv
    have hr : nd_rename o d src dst dstParentId fileName w =
        node_rename o
          { d with st := { d.st with modified := false } } src dst dstParentId fileName
          (w ++ [(d.id ++ ".content", .contentJson ft),
                 (d.id ++ "." ++ ft, .bytes data),
                 (d.id ++ ".metadata", .metadataJson d.st.meta)]) := by
      unfold nd_rename
      rw [if_pos hdot, hr1]
      rfl
    rw [hr]
    unfold node_rename
    simp only
    set d3 : NDoc :=
      { id := d.id, fileName := fileName, buf := d.buf,
        st := setParentId
          (setName { d.st with modified := false } (strip_extension fileName))
          dstParentId } with hd3
    have hdel3 : d3.st.meta.deleted = false := by
      rw [hd3]
      simp [setParentId, setName, bumpMeta, hdel]
    have hmod3 : d3.st.modified = true := by
      rw [hd3]
      simp [setParentId, setName]
    have hconv3 : convert_document o d3.buf = some (ft, data) := hconv
    have hdot3 : startsDot d3.fileName = false := hdot
    have hbuf3 : d3.buf ≠ [] := hbuf
    have hlive := nd_save_live o d3 (applyChildOp dst (.add fileName d.id))
      (w ++ [(d.id ++ ".content", RData.contentJson ft),
             (d.id ++ "." ++ ft, RData.bytes data),
             (d.id ++ ".metadata", RData.metadataJson d.st.meta)]) hdot3 hdel3
    have hsome := really_save_some o d3 (applyChildOp dst (.add fileName d.id))
      (w ++ [(d.id ++ ".content", RData.contentJson ft),
             (d.id ++ "." ++ ft, RData.bytes data),
             (d.id ++ ".metadata", RData.metadataJson d.st.meta)]) ft data hmod3 hbuf3 hconv3
    rw [hlive, hsome]
    refine ⟨rfl, ⟨[(d3.id ++ ".content", RData.contentJson ft),
                   (d3.id ++ "." ++ ft, RData.bytes data),
                   (d3.id ++ ".metadata", RData.metadataJson d3.st.meta)], rfl⟩,
      ?_, ?_, ?_, ?_, ?_⟩
    · simp
    · simp
    · simp
    · simp [hd3, setParentId, setName]
    · simp [hd3, setParentId, setName]

theorem pending_rename_saves_first_witness :
    (nd_rename ⟨fun _ => none, fun _ => none⟩
        ⟨"id1", "a", ⟨meta0, true⟩, [37, 80, 68, 70]⟩ [] [] "p2" "b.pdf" []).raised = false :=
  ((pending_rename_saves_first ⟨fun _ => none, fun _ => none⟩
      ⟨"id1", "a", ⟨meta0, true⟩, [37, 80, 68, 70]⟩ [] [] "p2" "b.pdf" []
      (by decide) (by decide) (by decide)).2.2 "pdf" [37, 80, 68, 70]
      (by decide) (by decide)).1

/-! ## Remarkable.open permission check (fs.py lines 93-101) -/

/-- The kind of node found at a path by the filesystem adapter. -/
inductive FsNodeKind where
  | collection | document | newDocument | plainNode
deriving DecidableEq

/-- posix O_WRONLY flag bit. -/
def O_WRONLY : Nat := 1

/-- posix O_RDWR flag bit. -/
def O_RDWR : Nat := 2

/-- The guard in Remarkable.open: because the Python operator and binds
tighter than or, the test is O_WRONLY or (O_RDWR and not NewDocument). -/
def openCheck (k : FsNodeKind) (flags : Nat) : Except Errno Unit :=
  if flags &&& O_WRONLY ≠ 0 ∨ (flags &&& O_RDWR ≠ 0 ∧ k ≠ FsNodeKind.newDocument) then
    Except.error Errno.EPERM
  else Except.ok ()

/-- C9: any flags containing O_WRONLY make open fail with EPERM for every
node kind, PendingDocuments included; only the O_RDWR bit is exempted for
PendingDocuments (any flags without O_WRONLY succeed on a PendingDocument,
O_RDWR set or not). -/
theorem open_wronly_always_eperm (k : FsNodeKind) (flags g : Nat)
    (h : flags &&& O_WRONLY ≠ 0) (hg : g &&& O_WRONLY = 0) :
    openCheck k flags = Except.error Errno.EPERM ∧
    openCheck FsNodeKind.newDocument g = Except.ok () := by
  constructor
  · unfold openCheck
    rw [if_pos (Or.inl h)]
  · unfold openCheck
    rw [if_neg]
    rintro (h1 | ⟨_, h2⟩)
    · exact h1 hg
    · exact h2 rfl

theorem open_wronly_always_eperm_witness :
    openCheck FsNodeKind.newDocument 1 = Except.error Errno.EPERM ∧
    openCheck FsNodeKind.newDocument 2 = Except.ok () :=
  ⟨(open_wronly_always_eperm FsNodeKind.newDocument 1 2 (by decide) (by decide)).1,
   (open_wronly_always_eperm FsNodeKind.newDocument 1 2 (by decide) (by decide)).2⟩

/-! ## DocumentRoot tree reconstruction (documents.py lines 238-301) -/

/-- A metadata snapshot: the records enumerated by the transport at load
time, as id and record pairs. The ids are distinct filenames. -/
abbrev Snapshot := List (String × MetaRec)

/-- The record listed for an id, if any. -/
def findRec (s : Snapshot) (id : String) : Option MetaRec :=
  (s.find? (fun p => p.1 == id)).map Prod.snd

/-- Whether load_node_without_linking registered a node under this id: a
record exists and its deleted flag is clear (documents.py lines 277-296). -/
def isRegistered (s : Snapshot) (id : String) : Bool :=
  ((findRec s id).map (fun m => !m.deleted)).getD false

/-- One step of the raw metadata parent chain through registered records. -/
def regStep (s : Snapshot) (id : String) : Option String :=
  if id = "" then none
  else (findRec s id).bind
    (fun m => if m.deleted = true then none else some m.parent)

/-- One step of the reconstructed parent links: Node.link (documents.py
lines 73-80) sets parent to find_node(metadata.parent), which resolves to
the synthetic root for the empty id, to a registered node, or to None. -/
def linkedStep (s : Snapshot) (id : String) : Option String :=
  if id = "" then none
  else (findRec s id).bind
    (fun m =>
      if m.deleted = true then none
      else if m.parent = "" ∨ isRegistered s m.parent = true then some m.parent
      else none)

/-- The chain from id after k parent steps has hit the synthetic root. -/
def ChainRoot (step : String → Option String) : Nat → String → Prop
  | 0, id => id = ""
  | k + 1, id => id = "" ∨ ∃ p, step id = some p ∧ ChainRoot step k p

/-- The chain of parent links from id terminates at the root. -/
def ReachesRoot (step : String → Option String) (id : String) : Prop :=
  ∃ k, ChainRoot step k id

theorem regStep_some (s : Snapshot) (id p : String) (h : regStep s id = some p) :
    id ≠ "" ∧ ∃ m, findRec s id = some m ∧ m.deleted = false ∧ p = m.parent := by
  unfold regStep at h
  by_cases hid : id = ""
  · rw [if_pos hid] at h
    simp at h
  · rw [if_neg hid] at h
    cases hm : findRec s id with
    | none =>
        rw [hm] at h
        simp at h
    | some m =>
        rw [hm, Option.some_bind] at h
        by_cases hd : m.deleted = true
        · rw [if_pos hd] at h
          simp at h
        · rw [if_neg hd] at h
          simp at h
          exact ⟨hid, m, rfl, by simpa using hd, h.symm⟩

theorem linkedStep_some (s : Snapshot) (id p : String) (h : linkedStep s id = some p) :
    regStep s id = some p := by
  unfold linkedStep at h
  unfold regStep
  by_cases hid : id = ""
  · rw [if_pos hid] at h
    simp at h
  · rw [if_neg hid] at h ⊢
    cases hm : findRec s id with
    | none =>
        rw [hm] at h
        simp at h
    | some m =>
        rw [hm, Option.some_bind] at h
        rw [Option.some_bind]
        by_cases hd : m.deleted = true
        · rw [if_pos hd] at h
          simp at h
        · rw [if_neg hd] at h ⊢
          by_cases hp : m.parent = "" ∨ isRegistered s m.parent = true
          · rwa [if_pos hp] at h
          · rw [if_neg hp] at h
            simp at h

theorem chainRoot_resolvable (s : Snapshot) (k : Nat) (p : String)
    (h : ChainRoot (regStep s) k p) : p = "" ∨ isRegistered s p = true := by
  cases k with
  | zero => exact Or.inl h
  | succ k =>
      rcases h with h | ⟨q, hq, _⟩
      · exact Or.inl h
      · obtain ⟨_, m, hm, hd, _⟩ := regStep_some s p q hq
        right
        unfold isRegistered
        rw [hm, Option.map_some', Option.getD_some, hd]
        rfl

theorem chainRoot_linked_of_reg (s : Snapshot) :
    ∀ k id, ChainRoot (regStep s) k id → ChainRoot (linkedStep s) k id := by
  intro k
  induction k with
  | zero => intro id h; exact h
  | succ k ih =>
      intro id h
      rcases h with h | ⟨p, hstep, hch⟩
      · exact Or.inl h
      · right
        refine ⟨p, ?_, ih p hch⟩
        obtain ⟨hid, m, hm, hd, hp⟩ := regStep_some s id p hstep
        unfold linkedStep
        rw [if_neg hid, hm, Option.some_bind, if_neg (by rw [hd]; simp),
          if_pos (by rw [← hp]; exact chainRoot_resolvable s k p hch)]
        rw [hp]

theorem chainRoot_reg_of_linked (s : Snapshot) :
    ∀ k id, ChainRoot (linkedStep s) k id → ChainRoot (regStep s) k id := by
  intro k
  induction k with
  | zero => intro id h; exact h
  | succ k ih =>
      intro id h
      rcases h with h | ⟨p, hstep, hch⟩
      · exact Or.inl h
      · exact Or.inr ⟨p, linkedStep_some s id p hstep, ih p hch⟩

/-- C1 (amended): the chain of reconstructed parent links of a node terminates
at the synthetic root with empty id exactly when its chain of raw metadata
parent fields, followed through registered (present, non-deleted) records,
terminates at the root. In particular the reconstruction is a forest for
exactly those snapshots whose own parent relation is; a snapshot with a
parent cycle reconstructs that cycle (see the counterexample). -/
theorem linked_chain_iff_meta_chain (s : Snapshot) (id : String) :
    ReachesRoot (linkedStep s) id ↔ ReachesRoot (regStep s) id := by
  constructor
  · rintro ⟨k, h⟩
    exact ⟨k, chainRoot_reg_of_linked s k id h⟩
  · rintro ⟨k, h⟩
    exact ⟨k, chainRoot_linked_of_reg s k id h⟩

/-- A snapshot whose two collections name each other as parent. -/
def cycSnap : Snapshot :=
  [("a", { meta0 with parent := "b", ntype := "CollectionType" }),
   ("b", { meta0 with parent := "a", ntype := "CollectionType" })]

theorem cycSnap_step_a : linkedStep cycSnap "a" = some "b" := by decide

theorem cycSnap_step_b : linkedStep cycSnap "b" = some "a" := by decide

theorem cycSnap_no_root :
    ∀ k, ¬ ChainRoot (linkedStep cycSnap) k "a" ∧ ¬ ChainRoot (linkedStep cycSnap) k "b" := by
  intro k
  induction k with
  | zero =>
      exact ⟨fun h => (by decide : ("a" : String) ≠ "") h,
        fun h => (by decide : ("b" : String) ≠ "") h⟩
  | succ k ih =>
      constructor
      · rintro (h | ⟨p, hp, hch⟩)
        · exact absurd h (by decide)
        · rw [cycSnap_step_a] at hp
          cases hp
          exact ih.2 hch
      · rintro (h | ⟨p, hp, hch⟩)
        · exact absurd h (by decide)
        · rw [cycSnap_step_b] at hp
          cases hp
          exact ih.1 hch

/-- C1 (counterexample): the snapshot with a two-collection parent cycle
registers node a, yet the chain of reconstructed parent links from a never
reaches the root: the DocumentRoot constructor does not detect cycles, so
not every snapshot reconstructs to a forest rooted at the synthetic root. -/
theorem load_cycle_counterexample :
    isRegistered cycSnap "a" = true ∧ ¬ ReachesRoot (linkedStep cycSnap) "a" := by
  refine ⟨by decide, ?_⟩
  rintro ⟨k, h⟩
  exact (cycSnap_no_root k).1 h

/-! ## The .lines header check (rM2svg.py lines 105-120 and abort, 64-66) -/

/-- The 43 ASCII byte values of the expected .lines header literal. -/
def expectedHeaderBytes : List Nat :=
  (String.toList "reMarkable lines with selections and layers").map Char.toNat

/-- A little-endian unsigned 32-bit read of four bytes. -/
def leU32 : List Nat → Nat
  | [b0, b1, b2, b3] => b0 + 256 * (b1 + 256 * (b2 + 256 * b3))
  | _ => 0

/-- The outcome of the header check in lines2cairo. abort prints and calls
sys.exit(1), so a failed check terminates the whole process; it does not
raise an error that the reading caller could receive. -/
inductive HeaderResult where
  | ok (npages : Nat)
  | sysExit (code : Nat)
deriving DecidableEq

/-- The header validation of lines2cairo: too-short data, a wrong literal
or a page count below 1 all call abort, modelled as sysExit 1. -/
def parseLinesHeader (data : List Nat) : HeaderResult :=
  if data.length < expectedHeaderBytes.length + 4 then .sysExit 1
  else
    if data.take expectedHeaderBytes.length ≠ expectedHeaderBytes ∨
        leU32 ((data.drop expectedHeaderBytes.length).take 4) < 1 then .sysExit 1
    else .ok (leU32 ((data.drop expectedHeaderBytes.length).take 4))

/-- C7 (amended): the decoder accepts an input exactly when it is at least
47 bytes, begins with the 43-byte header literal and carries a 32-bit
little-endian page count of at least 1; on every other input it prints a
message and terminates the process with exit status 1 (sys.exit in abort),
so no error value is returned to the reading caller. -/
theorem lines_header_acceptance (data : List Nat) :
    (∀ n, parseLinesHeader data = .ok n ↔
      (47 ≤ data.length ∧ data.take 43 = expectedHeaderBytes ∧
        n = leU32 ((data.drop 43).take 4) ∧ 1 ≤ n)) ∧
    ((∀ n, parseLinesHeader data ≠ .ok n) → parseLinesHeader data = .sysExit 1) := by
  have hlen : expectedHeaderBytes.length = 43 := by rfl
  unfold parseLinesHeader
  rw [hlen]
  by_cases h1 : data.length < 43 + 4
  · rw [if_pos h1]
    constructor
    · intro n
      constructor
      · intro h
        cases h
      · intro ⟨h, _⟩
        omega
    · intro _
      rfl
  · rw [if_neg h1]
    by_cases h2 : data.take 43 ≠ expectedHeaderBytes ∨
        leU32 ((data.drop 43).take 4) < 1
    · rw [if_pos h2]
      constructor
      · intro n
        constructor
        · intro h
          cases h
        · intro ⟨_, hh, hn, hge⟩
          rcases h2 with h2 | h2
          · exact absurd hh h2
          · omega
      · intro _
        rfl
    · rw [if_neg h2]
      push_neg at h2
      constructor
      · intro n
        constructor
        · intro h
          cases h
          exact ⟨by omega, h2.1, rfl, by omega⟩
        · intro ⟨_, _, hn, _⟩
          rw [hn]
      · intro h
        exact absurd rfl (h (leU32 ((data.drop 43).take 4)))

/-- The bytes of the string hello. -/
def helloBytes : List Nat := [104, 101, 108, 108, 111]

/-- C7 (counterexample): on the malformed input hello the decoder does not
return any error condition to the caller: it terminates the process with
exit status 1, so the claim that the error is reported to the reading
caller while the process continues serving requests is false. -/
theorem lines_malformed_exits_process :
    parseLinesHeader helloBytes = .sysExit 1 ∧
    ∀ n, parseLinesHeader helloBytes ≠ .ok n := by
  refine ⟨by decide, ?_⟩
  intro n h
  rw [show parseLinesHeader helloBytes = .sysExit 1 from by decide] at h
  cases h

theorem lines_header_acceptance_witness :
    parseLinesHeader helloBytes = .sysExit 1 :=
  (lines_header_acceptance helloBytes).2
    (fun n h => by
      rw [show parseLinesHeader helloBytes = .sysExit 1 from by decide] at h
      cases h)

/-! ## Stroke widths in lines2cairo (rM2svg.py lines 164-216) -/

/-- One stroke segment: the pressure and tilt floats of its record (the
coordinates do not enter the width computation). Values are modelled as
rationals. -/
structure Seg where
  pressure : ℚ
  tilt : ℚ
deriving DecidableEq

/-- The per-pen width transform applied to the stroke header width before
the segment loop (rM2svg.py lines 171-191). Pens 0 and 1 leave the header
width in place; pen 8 and unknown pens keep it too (only opacity is set). -/
def initWidth (pen : Nat) (w : ℚ) : ℚ :=
  if pen = 0 ∨ pen = 1 then w
  else if pen = 2 ∨ pen = 4 then 32 * w * w - 116 * w + 107
  else if pen = 3 then 64 * w - 112
  else if pen = 5 then 30
  else if pen = 6 then 1280 * w * w - 4800 * w + 4510
  else if pen = 7 then 16 * w - 27
  else w

/-- The opacity set before the segment loop. -/
def initOpacity (pen : Nat) : ℚ :=
  if pen = 3 then 9 / 10
  else if pen = 5 then 1 / 5
  else if pen = 8 then 0
  else if pen ≤ 8 then 1
  else 0

/-- The width update inside the segment loop: pens 0 and 1 overwrite the
width variable from its previous value, other pens leave it unchanged. -/
def stepWidth (pen : Nat) (width : ℚ) (sg : Seg) : ℚ :=
  if pen = 0 then (5 * sg.tilt) * (6 * width - 10) * (1 + 2 * sg.pressure ^ 3)
  else if pen = 1 then (10 * sg.tilt - 2) * (8 * width - 14)
  else width

/-- The widths with which the successive segments of a stroke are drawn:
the value of the width variable at the set_line_width call of each loop
iteration. -/
def segWidths (pen : Nat) : ℚ → List Seg → List ℚ
  | _, [] => []
  | width, sg :: ss => stepWidth pen width sg :: segWidths pen (stepWidth pen width sg) ss

/-- The widths for a whole stroke, starting from the header width field. -/
def strokeWidths (pen : Nat) (w : ℚ) (segs : List Seg) : List ℚ :=
  segWidths pen (initWidth pen w) segs

/-- The opacity values at the set_alpha call of each loop iteration: pen 1
overwrites the opacity from the segment pressure, other pens keep the
initial value. -/
def segOpacs (pen : Nat) : ℚ → List Seg → List ℚ
  | _, [] => []
  | op, sg :: ss =>
      (if pen = 1 then (sg.pressure - 1 / 5) ^ 2 else op) ::
        segOpacs pen (if pen = 1 then (sg.pressure - 1 / 5) ^ 2 else op) ss

/-- The opacities for a whole stroke. -/
def strokeOpacities (pen : Nat) (segs : List Seg) : List ℚ :=
  segOpacs pen (initOpacity pen) segs

/-- The per-segment width the claim asserts for pen 0, in terms of the
header width w alone. -/
def claimedWidthPen0 (w : ℚ) (sg : Seg) : ℚ :=
  (5 * sg.tilt) * (6 * w - 10) * (1 + 2 * sg.pressure ^ 3)

theorem segWidths_length (pen : Nat) (w : ℚ) (segs : List Seg) :
    (segWidths pen w segs).length = segs.length := by
  induction segs generalizing w with
  | nil => rfl
  | cons sg ss ih => simp [segWidths, ih]

theorem segWidths_const (pen : Nat) (w : ℚ) (segs : List Seg)
    (h0 : pen ≠ 0) (h1 : pen ≠ 1) :
    segWidths pen w segs = List.replicate segs.length w := by
  induction segs generalizing w with
  | nil => rfl
  | cons sg ss ih =>
      have hw : stepWidth pen w sg = w := by
        unfold stepWidth
        rw [if_neg h0, if_neg h1]
      simp [segWidths, hw, ih, List.replicate_succ]

theorem segWidths_getD (pen : Nat) (w : ℚ) (segs : List Seg) :
    ∀ k, k < segs.length →
      (segWidths pen w segs).getD k 0 =
        stepWidth pen (if k = 0 then w else (segWidths pen w segs).getD (k - 1) 0)
          (segs.getD k ⟨0, 0⟩) := by
  induction segs generalizing w with
  | nil =>
      intro k hk
      simp at hk
  | cons sg ss ih =>
      intro k hk
      cases k with
      | zero => simp [segWidths]
      | succ j =>
          have hj : j < ss.length := by
            simp at hk
            omega
          have := ih (stepWidth pen w sg) j hj
          cases j with
          | zero =>
              simp [segWidths, List.getD_cons_succ, List.getD_cons_zero] at this ⊢
              exact this
          | succ i =>
              simp [segWidths, List.getD_cons_succ] at this ⊢
              exact this

theorem segOpacs_pen1 (segs : List Seg) : ∀ op,
    segOpacs 1 op segs = segs.map (fun sg => (sg.pressure - 1 / 5) ^ 2) := by
  induction segs with
  | nil => intro op; rfl
  | cons sg ss ih =>
      intro op
      simp [segOpacs, ih]

/-- C6 (amended): pens 0 and 1 update the width iteratively - the width of
each segment is computed by the pen formula applied to the width computed
for the previous segment (the header width only for the first segment) -
while every other pen draws the whole stroke with the single width fixed
before the loop; pen 1 recomputes the opacity per segment as the square of
pressure minus one fifth. -/
theorem stroke_width_recurrence (w : ℚ) (segs : List Seg) (pen : Nat) :
    (pen ≠ 0 → pen ≠ 1 →
      strokeWidths pen w segs = List.replicate segs.length (initWidth pen w)) ∧
    (∀ k, k < segs.length →
      (strokeWidths 0 w segs).getD k 0 =
        (5 * (segs.getD k ⟨0, 0⟩).tilt) *
          (6 * (if k = 0 then w else (strokeWidths 0 w segs).getD (k - 1) 0) - 10) *
          (1 + 2 * (segs.getD k ⟨0, 0⟩).pressure ^ 3) ∧
      (strokeWidths 1 w segs).getD k 0 =
        (10 * (segs.getD k ⟨0, 0⟩).tilt - 2) *
          (8 * (if k = 0 then w else (strokeWidths 1 w segs).getD (k - 1) 0) - 14)) ∧
    strokeOpacities 1 segs = segs.map (fun sg => (sg.pressure - 1 / 5) ^ 2) := by
  refine ⟨?_, ?_, ?_⟩
  · intro h0 h1
    exact segWidths_const pen (initWidth pen w) segs h0 h1
  · intro k hk
    have hi0 : initWidth 0 w = w := by
      unfold initWidth
      rw [if_pos (Or.inl rfl)]
    have hi1 : initWidth 1 w = w := by
      unfold initWidth
      rw [if_pos (Or.inr rfl)]
    constructor
    · have := segWidths_getD 0 w segs k hk
      unfold strokeWidths
      rw [hi0, this]
      unfold stepWidth
      rw [if_pos rfl]
    · have := segWidths_getD 1 w segs k hk
      unfold strokeWidths
      rw [hi1, this]
      unfold stepWidth
      rw [if_neg (by omega), if_pos rfl]
  · exact segOpacs_pen1 segs (initOpacity 1)

/-- C6 (counterexample): a pen-0 stroke with header width 2 and two
segments of pressure 0 and tilt 1 is drawn with widths 10 and then 250,
not the width 10 that the claimed formula in terms of the header width
alone gives for both segments: later segments feed the previously computed
width back into the formula. -/
theorem stroke_width_not_from_header :
    strokeWidths 0 2 [⟨0, 1⟩, ⟨0, 1⟩] = [10, 250] ∧
    List.map (claimedWidthPen0 2) [⟨0, 1⟩, ⟨0, 1⟩] = [10, 10] ∧
    strokeWidths 0 2 [⟨0, 1⟩, ⟨0, 1⟩] ≠ List.map (claimedWidthPen0 2) [⟨0, 1⟩, ⟨0, 1⟩] := by
  refine ⟨?_, ?_, ?_⟩
  · show [stepWidth 0 (initWidth 0 2) ⟨0, 1⟩,
      stepWidth 0 (stepWidth 0 (initWidth 0 2) ⟨0, 1⟩) ⟨0, 1⟩] = [10, 250]
    norm_num [stepWidth, initWidth]
  · norm_num [claimedWidthPen0]
  · intro h
    rw [show strokeWidths 0 2 [⟨0, 1⟩, ⟨0, 1⟩] = [10, 250] from by
        show [stepWidth 0 (initWidth 0 2) ⟨0, 1⟩,
          stepWidth 0 (stepWidth 0 (initWidth 0 2) ⟨0, 1⟩) ⟨0, 1⟩] = [10, 250]
        norm_num [stepWidth, initWidth],
      show List.map (claimedWidthPen0 2) [⟨0, 1⟩, ⟨0, 1⟩] = [10, 10] from by
        norm_num [claimedWidthPen0]] at h
    simp at h

theorem stroke_width_recurrence_witness :
    strokeWidths 5 (2 : ℚ) [⟨0, 1⟩, ⟨0, 1⟩] =
      List.replicate ([(⟨0, 1⟩ : Seg), ⟨0, 1⟩] : List Seg).length (initWidth 5 2) :=
  (stroke_width_recurrence 2 [⟨0, 1⟩, ⟨0, 1⟩] 5).1 (by omega) (by omega)
